import Mathlib

/-!
Verification of the `rguignard/connectors` repository (AlienVault and
CrowdStrike OpenCTI connectors).

The Python modules are shallowly embedded:

* `alienvault/importer.py` — `PulseImporter`.  Timestamps (ISO datetime
  strings parsed by `iso_datetime_str_to_datetime` and re-serialized with
  `isoformat`) are modelled by integers under the timestamp order; the
  parse/serialize round-trip is the identity on that model.  The AlienVault
  client and the OpenCTI malware-lookup API are oracles passed as function
  arguments.  The `malware_guess_cache` dictionary is an association list
  with Python `dict` semantics (first-match lookup, in-place update,
  append on new key), and every lookup call made through
  `helper.api.malware.list` is logged so that call-count claims can be
  stated.

* `crowdstrike/utils.py` — the pure helper functions are translated
  directly; the `lxml` `text_content` extraction is an oracle parameter of
  `remove_html_tags`, and STIX2 constructors are modelled by structures
  carrying exactly the fields the claims mention.
-/

/-! ### Python `dict` model (string keys and values) -/

/-- Python `d.get(k)`: value of the first (only) entry with key `k`. -/
def dictGet (m : List (String × String)) (k : String) : Option String :=
  match m with
  | [] => none
  | kv :: rest => if kv.1 = k then some kv.2 else dictGet rest k

/-- Python `d[k] = v`: update the entry with key `k` in place, or append a
new entry at the end. -/
def dictSet (m : List (String × String)) (k v : String) :
    List (String × String) :=
  match m with
  | [] => [(k, v)]
  | kv :: rest => if kv.1 = k then (k, v) :: rest else kv :: dictSet rest k v

/-! ### AlienVault `PulseImporter` (alienvault/importer.py) -/

/-- A pulse, with the fields `PulseImporter.run` reads: `modified` (a
datetime, modelled as an integer timestamp) and `tags`. -/
structure Pulse where
  modified : Int
  tags : List String
deriving Repr, DecidableEq

namespace PulseImporter

/-- `PulseImporter._GUESS_NOT_A_MALWARE`. -/
def GUESS_NOT_A_MALWARE : String := "GUESS_NOT_A_MALWARE"

/-- The mutable state that `_guess_malwares_from_tags` touches: the
`malware_guess_cache` dict, plus an instrumentation log of the names
passed to `_fetch_malware_stix_id_by_name` (one entry per API lookup). -/
structure GuessState where
  cache : List (String × String)
  calls : List String
deriving Repr, DecidableEq

/-- The guess `_guess_malwares_from_tags` stores in the cache for a tag:
the STIX id returned by `_fetch_malware_stix_id_by_name` (oracle `f`), or
the `GUESS_NOT_A_MALWARE` sentinel when the lookup returns `None`. -/
def guessOf (f : String → Option String) (tag : String) : String :=
  match f tag with
  | some stixId => stixId
  | none => GUESS_NOT_A_MALWARE

/-- The `for tag in tags` loop body of `_guess_malwares_from_tags`,
threading the `malwares` result dict and the cache/call state. -/
def guessGo (f : String → Option String) :
    List String → List (String × String) → GuessState →
    List (String × String) × GuessState
  | [], malwares, st => (malwares, st)
  | tag :: rest, malwares, st =>
    if tag = "" then
      guessGo f rest malwares st
    else
      match dictGet st.cache tag with
      | some guess =>
        guessGo f rest
          (if guess = GUESS_NOT_A_MALWARE then malwares
           else dictSet malwares tag guess) st
      | none =>
        let guess := guessOf f tag
        let st' : GuessState :=
          { cache := dictSet st.cache tag guess, calls := st.calls ++ [tag] }
        guessGo f rest
          (if guess = GUESS_NOT_A_MALWARE then malwares
           else dictSet malwares tag guess) st'

/-- `PulseImporter._guess_malwares_from_tags`.  `guessMalware` is
`self.guess_malware`; `f` is the `_fetch_malware_stix_id_by_name` oracle. -/
def guess_malwares_from_tags (guessMalware : Bool)
    (f : String → Option String) (st : GuessState) (tags : List String) :
    List (String × String) × GuessState :=
  if !guessMalware then ([], st)
  else guessGo f tags [] st

/-- The lookup names `guess_malwares_from_tags` adds to the call log,
computed from the tag list and the cache alone (specification-side mirror
of the cache evolution in `guessGo`). -/
def newCallsOf (f : String → Option String) :
    List String → List (String × String) → List String
  | [], _ => []
  | tag :: rest, cache =>
    if tag = "" then newCallsOf f rest cache
    else
      match dictGet cache tag with
      | some _ => newCallsOf f rest cache
      | none => tag :: newCallsOf f rest (dictSet cache tag (guessOf f tag))

/-- `PulseImporter._clear_malware_guess_cache` (`dict.clear()`). -/
def clear_malware_guess_cache (_cache : List (String × String)) :
    List (String × String) := []

/-- The `for pulse in pulses: self._process_pulse(pulse)` loop of `run`:
each `_process_pulse` builds a bundle whose guessed-malware mapping comes
from `_guess_malwares_from_tags` on the pulse's tags, threading the cache
across pulses.  Returns the per-pulse guessed-malware mappings (the part
of each bundle the importer computes) and the final state. -/
def processPulses (guessMalware : Bool) (f : String → Option String) :
    List Pulse → GuessState → List (List (String × String)) × GuessState
  | [], st => ([], st)
  | p :: rest, st =>
    let r := guess_malwares_from_tags guessMalware f st p.tags
    let rs := processPulses guessMalware f rest r.2
    (r.1 :: rs.1, rs.2)

/-- `PulseImporter.run`.  `state` is the stored
`latest_pulse_timestamp` (absent key ↦ `none`, covered by
`default_latest_timestamp`); `getPulses` is
`client.get_pulses_subscribed`; `f` is the malware-lookup oracle;
`cache0` is whatever `malware_guess_cache` held before the run.  Returns
the `latest_pulse_timestamp` value of the returned state mapping, the
per-pulse guessed-malware mappings, and the final guess state. -/
def run (guessMalware : Bool) (defaultLatest : Int)
    (getPulses : Int → List Pulse) (f : String → Option String)
    (cache0 : List (String × String)) (state : Option Int) :
    Int × List (List (String × String)) × GuessState :=
  let cache1 := clear_malware_guess_cache cache0
  let st0 : GuessState := { cache := cache1, calls := [] }
  let fetchTimestamp := state.getD defaultLatest
  let pulses := getPulses fetchTimestamp
  let processed := processPulses guessMalware f pulses st0
  let latest := pulses.foldl
    (fun latest p => if p.modified > latest then p.modified else latest)
    fetchTimestamp
  (latest, processed.1, processed.2)

end PulseImporter

/-! ### CrowdStrike utilities (crowdstrike/utils.py) -/

/-- `next_batch(limit, offset, total)`: is there a next batch of
resources?  (`limit` is accepted but unused, as in the source.) -/
def next_batch (_limit offset : Int) (total : Option Int) : Bool :=
  match total with
  | none => true
  | some t => decide (t - offset > 0)

/-- Pagination metadata of a CrowdStrike API response
(`meta.pagination`). -/
structure Pagination where
  limit : Int
  offset : Int
  total : Option Int
deriving Repr, DecidableEq

/-- The slice of a CrowdStrike API `Response` that `paginate` reads. -/
structure ApiResponse (α : Type) where
  errors : List String
  pagination : Option Pagination
  resources : List α
deriving Repr, DecidableEq

/-- The loop variables `_offset`, `_total` of `paginate.wrapper_paginate`
(`_limit` never changes). -/
structure PagState where
  offset : Int
  total : Option Int
deriving Repr, DecidableEq

/-- One iteration of the `while next_batch(...)` loop body: call `func`,
then advance `_offset` by `_limit` and take the new `_total` when the
response carries pagination metadata, else leave both unchanged. -/
def pagStep {α : Type} (func : Int → Int → ApiResponse α) (limit : Int)
    (s : PagState) : PagState :=
  match (func limit s.offset).pagination with
  | some p => { offset := s.offset + limit, total := p.total }
  | none => s

/-- The loop state after `n` iterations of `wrapper_paginate` (frozen once
`next_batch` turns false). -/
def pagStates {α : Type} (func : Int → Int → ApiResponse α) (limit : Int) :
    Nat → PagState
  | 0 => { offset := 0, total := none }
  | n + 1 =>
    let s := pagStates func limit n
    if next_batch limit s.offset s.total then pagStep func limit s else s

/-- The batches yielded by the generator within the first `n` loop
iterations. -/
def pagYields {α : Type} (func : Int → Int → ApiResponse α) (limit : Int) :
    Nat → List (List α)
  | 0 => []
  | n + 1 =>
    let s := pagStates func limit n
    if next_batch limit s.offset s.total then
      pagYields func limit n ++ [(func limit s.offset).resources]
    else pagYields func limit n

/-- The `wrapper_paginate` loop terminates: some iteration finds
`next_batch` false (after which the state is frozen and no further batch
is yielded). -/
def paginateStops {α : Type} (func : Int → Int → ApiResponse α)
    (limit : Int) : Prop :=
  ∃ n, next_batch limit (pagStates func limit n).offset
    (pagStates func limit n).total = false

/-! #### STIX2 object models -/

/-- A STIX domain object, carrying the one property the helpers read. -/
structure STIXDomainObject where
  id : String
deriving Repr, DecidableEq

/-- The STIX2 `Relationship` as built by `create_relationship`
(`first_seen` / `last_seen` datetimes are modelled as integers). -/
structure SRelationship where
  created_by_ref : String
  relationship_type : String
  source_ref : String
  target_ref : String
  object_marking_refs : List String
  first_seen : Int
  last_seen : Int
  weight : Int
deriving Repr, DecidableEq

/-- `create_relationship`. -/
def create_relationship (relationship_type : String) (author : String)
    (source target : STIXDomainObject) (object_marking_refs : List String)
    (first_seen last_seen : Int) (confidence_level : Int) : SRelationship :=
  { created_by_ref := author
    relationship_type := relationship_type
    source_ref := source.id
    target_ref := target.id
    object_marking_refs := object_marking_refs
    first_seen := first_seen
    last_seen := last_seen
    weight := confidence_level }

/-- `create_relationships`: the nested `for source … for target …` loops,
appending one relationship per (source, target) pair. -/
def create_relationships (relationship_type : String) (author : String)
    (sources targets : List STIXDomainObject)
    (object_marking_refs : List String) (first_seen last_seen : Int)
    (confidence_level : Int) : List SRelationship :=
  sources.foldl
    (fun relationships source =>
      targets.foldl
        (fun relationships target =>
          relationships ++
            [create_relationship relationship_type author source target
              object_marking_refs first_seen last_seen confidence_level])
        relationships)
    []

/-- `create_targets_relationships`. -/
def create_targets_relationships (author : String)
    (sources targets : List STIXDomainObject)
    (object_marking_refs : List String) (first_seen last_seen : Int)
    (confidence_level : Int) : List SRelationship :=
  create_relationships "targets" author sources targets object_marking_refs
    first_seen last_seen confidence_level

/-- `create_uses_relationships`. -/
def create_uses_relationships (author : String)
    (sources targets : List STIXDomainObject)
    (object_marking_refs : List String) (first_seen last_seen : Int)
    (confidence_level : Int) : List SRelationship :=
  create_relationships "uses" author sources targets object_marking_refs
    first_seen last_seen confidence_level

/-- `create_indicates_relationships`. -/
def create_indicates_relationships (author : String)
    (sources targets : List STIXDomainObject)
    (object_marking_refs : List String) (first_seen last_seen : Int)
    (confidence_level : Int) : List SRelationship :=
  create_relationships "indicates" author sources targets
    object_marking_refs first_seen last_seen confidence_level

/-- An argument to `create_object_refs`: a single STIX domain object, or a
list of them (the `isinstance(obj, STIXDomainObject)` branch vs. the
`extend` branch). -/
inductive StixArg where
  | obj (o : STIXDomainObject)
  | objs (l : List STIXDomainObject)
deriving Repr, DecidableEq

/-- `create_object_refs`: loop over `*objects`, `append` a single domain
object, `extend` with a list. -/
def create_object_refs (objects : List StixArg) : List STIXDomainObject :=
  objects.foldl
    (fun object_refs obj =>
      match obj with
      | .obj o => object_refs ++ [o]
      | .objs l => object_refs ++ l)
    []

/-- The claim's specification of `create_object_refs`: the
order-preserving flattening of the arguments. -/
def flattenArgs (objects : List StixArg) : List STIXDomainObject :=
  objects.flatMap fun obj =>
    match obj with
    | .obj o => [o]
    | .objs l => l

/-! #### Entities, identities, reports, intrusion sets -/

/-- A CrowdStrike report entity (`crowdstrike_client` `Entity` model),
with the fields the helpers read. -/
structure Entity where
  id : Int
  slug : Option String
  value : Option String
deriving Repr, DecidableEq

/-- A STIX2 `Identity` as built by `create_region` / `create_country`.
`identity_type` is the `CustomProperties.IDENTITY_TYPE` custom property;
`aliases` is the `CustomProperties.ALIASES` custom property (absent when
the constructor does not set it). -/
structure SIdentity where
  created_by_ref : String
  name : Option String
  identity_class : String
  identity_type : String
  aliases : Option (List String)
deriving Repr, DecidableEq

/-- Python `str.upper()` on the model: upper-case each character. -/
def pyUpper (s : String) : String :=
  ⟨s.data.map Char.toUpper⟩

/-- `create_region`. -/
def create_region (entity : Entity) (author : String) : SIdentity :=
  { created_by_ref := author
    name := entity.value
    identity_class := "group"
    identity_type := "region"
    aliases := none }

/-- `create_country`: like `create_region` but typed `country`, and with
the upper-cased slug as alias when the slug is present. -/
def create_country (entity : Entity) (author : String) : SIdentity :=
  { created_by_ref := author
    name := entity.value
    identity_class := "group"
    identity_type := "country"
    aliases :=
      match entity.slug with
      | some slug => some [pyUpper slug]
      | none => none }

/-- `split_countries_and_regions`: skip entities missing a slug or a
value; slugs longer than two characters become regions, the rest become
countries. -/
def split_countries_and_regions (entities : List Entity) (author : String) :
    List SIdentity × List SIdentity :=
  match entities with
  | [] => ([], [])
  | entity :: rest =>
    match entity.slug, entity.value with
    | some slug, some _ =>
      let r := split_countries_and_regions rest author
      if slug.length > 2 then (create_region entity author :: r.1, r.2)
      else (r.1, create_country entity author :: r.2)
    | _, _ => split_countries_and_regions rest author

/-- A CrowdStrike report (`crowdstrike_client` `Report` model), with the
fields `create_stix2_report_from_report` reads (`created_date` as an
integer timestamp). -/
structure CSReport where
  name : String
  rich_text_description : Option String
  description : Option String
  short_description : Option String
  created_date : Option Int
deriving Repr, DecidableEq

/-- A STIX2 `Report` as built by `create_report`, restricted to the
fields the claims mention. -/
structure STIXReport where
  created_by_ref : String
  name : String
  description : String
  published : Int
deriving Repr, DecidableEq

/-- Python `str.strip()`: drop leading and trailing whitespace. -/
def pyStrip (s : String) : String :=
  ⟨((s.data.dropWhile Char.isWhitespace).reverse.dropWhile
      Char.isWhitespace).reverse⟩

/-- `remove_html_tags`: extract the text content of the HTML (via the
`lxml` oracle `text_content`, i.e. `fromstring(html_text).text_content()`)
and strip surrounding whitespace. -/
def remove_html_tags (text_content : String → String)
    (html_text : String) : String :=
  pyStrip (text_content html_text)

/-- `create_report`, restricted to the fields of the model. -/
def create_report (name : String) (description : String) (published : Int)
    (author : String) : STIXReport :=
  { created_by_ref := author
    name := name
    description := description
    published := published }

/-- `create_stix2_report_from_report`: pick the description by priority
(HTML-stripped `rich_text_description`, then `description`, then
`short_description`, then `"N/A"`), default the created date to `now`
(`datetime_utc_now()`), and build the report. -/
def create_stix2_report_from_report (text_content : String → String)
    (now : Int) (report : CSReport) (author : String) : STIXReport :=
  let description :=
    match report.rich_text_description with
    | some rich => remove_html_tags text_content rich
    | none =>
      match report.description with
      | some d => d
      | none =>
        match report.short_description with
        | some sd => sd
        | none => "N/A"
  let report_created_date :=
    match report.created_date with
    | some d => d
    | none => now
  create_report report.name description report_created_date author

/-- A CrowdStrike actor (`crowdstrike_client` `Actor` model), with the
fields `create_intrusion_set_from_actor` reads. -/
structure Actor where
  id : Int
  name : Option String
deriving Repr, DecidableEq

/-- A STIX2 `IntrusionSet` as built by `create_intrusion_set`, restricted
to the fields the claims mention. -/
structure IntrusionSet where
  created_by_ref : String
  name : String
  aliases : List String
  primary_motivation : Option String
  secondary_motivations : List String
deriving Repr, DecidableEq

/-- `create_intrusion_set`, restricted to the fields of the model. -/
def create_intrusion_set (name : String) (aliases : List String)
    (author : String) (primary_motivation : Option String)
    (secondary_motivations : List String) : IntrusionSet :=
  { created_by_ref := author
    name := name
    aliases := aliases
    primary_motivation := primary_motivation
    secondary_motivations := secondary_motivations }

/-- Python `name.replace(" ", "")`: remove every space character. -/
def removeSpaces (s : String) : String :=
  ⟨s.data.filter (fun c => c ≠ ' ')⟩

/-- `create_intrusion_set_from_actor`: name falls back to
`NO_NAME_{actor.id}`, the single alias is the name without spaces, and a
secondary motivation is kept only when it is a non-empty string. -/
def create_intrusion_set_from_actor (actor : Actor) (author : String)
    (primary_motivation : Option String)
    (secondary_motivation : Option String) : IntrusionSet :=
  let name :=
    match actor.name with
    | some n => n
    | none => "NO_NAME_" ++ toString actor.id
  let nameAlias := removeSpaces name
  let aliases := [nameAlias]
  let secondary_motivations :=
    match secondary_motivation with
    | some s => if s = "" then [] else [s]
    | none => []
  create_intrusion_set name aliases author primary_motivation
    secondary_motivations

/-! ### Helper lemmas -/

lemma foldl_objRefs_eq (objects : List StixArg)
    (acc : List STIXDomainObject) :
    objects.foldl
      (fun object_refs obj =>
        match obj with
        | .obj o => object_refs ++ [o]
        | .objs l => object_refs ++ l)
      acc = acc ++ flattenArgs objects := by
  induction objects generalizing acc with
  | nil => simp [flattenArgs]
  | cons a rest ih =>
    cases a with
    | obj o => simp [flattenArgs, List.foldl_cons, ih]
    | objs l => simp [flattenArgs, List.foldl_cons, ih]

lemma foldl_append_map {α β : Type} (g : α → β) (l : List α)
    (acc : List β) :
    l.foldl (fun acc t => acc ++ [g t]) acc = acc ++ l.map g := by
  induction l generalizing acc with
  | nil => simp
  | cons t rest ih => simp [ih]

lemma create_relationships_eq_flatMap (relationship_type author : String)
    (sources targets : List STIXDomainObject)
    (object_marking_refs : List String) (first_seen last_seen : Int)
    (confidence_level : Int) :
    create_relationships relationship_type author sources targets
        object_marking_refs first_seen last_seen confidence_level
      = sources.flatMap fun source =>
          targets.map fun target =>
            create_relationship relationship_type author source target
              object_marking_refs first_seen last_seen confidence_level := by
  have go : ∀ (ss : List STIXDomainObject) (acc : List SRelationship),
      ss.foldl
        (fun relationships source =>
          targets.foldl
            (fun relationships target =>
              relationships ++
                [create_relationship relationship_type author source target
                  object_marking_refs first_seen last_seen confidence_level])
            relationships)
        acc
      = acc ++ ss.flatMap fun source =>
          targets.map fun target =>
            create_relationship relationship_type author source target
              object_marking_refs first_seen last_seen confidence_level := by
    intro ss
    induction ss with
    | nil => simp
    | cons s rest ih =>
      intro acc
      rw [List.foldl_cons, ih, foldl_append_map]
      simp
  exact go sources []

lemma flatMap_map_length {α β γ : Type} (g : α → β → γ)
    (ss : List α) (ts : List β) :
    (ss.flatMap fun s => ts.map fun t => g s t).length
      = ss.length * ts.length := by
  induction ss with
  | nil => simp
  | cons s rest ih => simp [ih, Nat.succ_mul, Nat.add_comm]

lemma flatMap_map_getElem {α β γ : Type} (g : α → β → γ)
    (ss : List α) (ts : List β) (i j : Nat)
    (hi : i < ss.length) (hj : j < ts.length) :
    (ss.flatMap fun s => ts.map fun t => g s t)[i * ts.length + j]?
      = some (g (ss.get ⟨i, hi⟩) (ts.get ⟨j, hj⟩)) := by
  induction ss generalizing i with
  | nil => cases hi
  | cons s rest ih =>
    cases i with
    | zero =>
      simp only [List.flatMap_cons, Nat.zero_mul, Nat.zero_add]
      rw [List.getElem?_append_left (by simpa using hj)]
      simp [List.getElem?_eq_getElem hj]
    | succ i =>
      have hi2 : i < rest.length := by simpa using hi
      have harith : (i + 1) * ts.length + j
          = ts.length + (i * ts.length + j) := by
        rw [Nat.succ_mul]; omega
      simp only [List.flatMap_cons]
      rw [List.getElem?_append_right (by simp [harith])]
      have hidx : (i + 1) * ts.length + j
            - (ts.map fun t => g s t).length
          = i * ts.length + j := by
        simp [harith]
      rw [hidx, ih i hi2]
      simp

/-! ### Claims -/

/-- C7: `create_object_refs` returns the order-preserving flattening of
its arguments: each single domain object is appended and each list of
objects is spliced in place, so the result contains every supplied object
exactly once, in argument order. -/
theorem claim_C7_create_object_refs_flattens (objects : List StixArg) :
    create_object_refs objects = flattenArgs objects := by
  simpa [create_object_refs] using foldl_objRefs_eq objects []

/-- C4: `create_relationships` returns exactly `n * m` relationships, one
per (source, target) pair in source-major order; each relationship's
`source_ref` is that source's id and `target_ref` is that target's id;
and the `targets` / `uses` / `indicates` helpers are `create_relationships`
specialized to the respective relationship type. -/
theorem claim_C4_create_relationships
    (relationship_type author : String)
    (sources targets : List STIXDomainObject)
    (object_marking_refs : List String) (first_seen last_seen : Int)
    (confidence_level : Int) :
    (create_relationships relationship_type author sources targets
        object_marking_refs first_seen last_seen confidence_level).length
      = sources.length * targets.length
    ∧ (∀ i j (hi : i < sources.length) (hj : j < targets.length),
        (create_relationships relationship_type author sources targets
            object_marking_refs first_seen last_seen
            confidence_level)[i * targets.length + j]?
          = some (create_relationship relationship_type author
              (sources.get ⟨i, hi⟩) (targets.get ⟨j, hj⟩)
              object_marking_refs first_seen last_seen confidence_level))
    ∧ (∀ source target,
        (create_relationship relationship_type author source target
            object_marking_refs first_seen last_seen
            confidence_level).source_ref = source.id
        ∧ (create_relationship relationship_type author source target
            object_marking_refs first_seen last_seen
            confidence_level).target_ref = target.id)
    ∧ create_targets_relationships author sources targets
        object_marking_refs first_seen last_seen confidence_level
      = create_relationships "targets" author sources targets
          object_marking_refs first_seen last_seen confidence_level
    ∧ create_uses_relationships author sources targets
        object_marking_refs first_seen last_seen confidence_level
      = create_relationships "uses" author sources targets
          object_marking_refs first_seen last_seen confidence_level
    ∧ create_indicates_relationships author sources targets
        object_marking_refs first_seen last_seen confidence_level
      = create_relationships "indicates" author sources targets
          object_marking_refs first_seen last_seen confidence_level := by
  refine ⟨?_, ?_, fun source target => ⟨rfl, rfl⟩, rfl, rfl, rfl⟩
  · rw [create_relationships_eq_flatMap, flatMap_map_length]
  · intro i j hi hj
    rw [create_relationships_eq_flatMap]
    exact flatMap_map_getElem _ sources targets i j hi hj

/-- Witness for C4: the relationship at index `1 * 1 + 0` of a concrete
2-source, 1-target call is the (second source, first target) pair. -/
theorem claim_C4_witness :
    (create_relationships "uses" "author" [⟨"s0"⟩, ⟨"s1"⟩] [⟨"t0"⟩]
        ["marking"] 0 1 2)[1 * 1 + 0]?
      = some (create_relationship "uses" "author" ⟨"s1"⟩ ⟨"t0"⟩
          ["marking"] 0 1 2) :=
  (claim_C4_create_relationships "uses" "author" [⟨"s0"⟩, ⟨"s1"⟩]
    [⟨"t0"⟩] ["marking"] 0 1 2).2.1 1 0 (by decide) (by decide)

lemma pyStrip_decomp (s : String) :
    ∃ pre post : List Char,
      s.data = pre ++ (pyStrip s).data ++ post
      ∧ (∀ c ∈ pre, c.isWhitespace)
      ∧ (∀ c ∈ post, c.isWhitespace) := by
  refine ⟨s.data.takeWhile Char.isWhitespace,
    ((s.data.dropWhile Char.isWhitespace).reverse.takeWhile
      Char.isWhitespace).reverse, ?_, ?_, ?_⟩
  · have hm : s.data.dropWhile Char.isWhitespace
        = ((s.data.dropWhile Char.isWhitespace).reverse.dropWhile
            Char.isWhitespace).reverse
          ++ ((s.data.dropWhile Char.isWhitespace).reverse.takeWhile
            Char.isWhitespace).reverse := by
      rw [← List.reverse_append, List.takeWhile_append_dropWhile,
        List.reverse_reverse]
    conv_lhs => rw [← List.takeWhile_append_dropWhile Char.isWhitespace
      s.data, hm]
    simp [pyStrip]
  · intro c hc
    exact List.mem_takeWhile_imp hc
  · intro c hc
    exact List.mem_takeWhile_imp (List.mem_reverse.mp hc)

/-- C5: `create_stix2_report_from_report` chooses the description by
fixed priority — the HTML-stripped `rich_text_description` when present,
else the plain `description`, else the `short_description`, else the
literal `"N/A"` — and `remove_html_tags` returns the text content of the
HTML with leading and trailing whitespace removed. -/
theorem claim_C5_report_description
    (text_content : String → String) (now : Int) (report : CSReport)
    (author : String) :
    (∀ rich, report.rich_text_description = some rich →
      (create_stix2_report_from_report text_content now report
          author).description = remove_html_tags text_content rich)
    ∧ (report.rich_text_description = none →
        ∀ d, report.description = some d →
        (create_stix2_report_from_report text_content now report
            author).description = d)
    ∧ (report.rich_text_description = none → report.description = none →
        ∀ sd, report.short_description = some sd →
        (create_stix2_report_from_report text_content now report
            author).description = sd)
    ∧ (report.rich_text_description = none → report.description = none →
        report.short_description = none →
        (create_stix2_report_from_report text_content now report
            author).description = "N/A")
    ∧ (∀ html, remove_html_tags text_content html
          = pyStrip (text_content html)
        ∧ ∃ pre post : List Char,
            (text_content html).data
              = pre ++ (remove_html_tags text_content html).data ++ post
            ∧ (∀ c ∈ pre, c.isWhitespace)
            ∧ (∀ c ∈ post, c.isWhitespace)) := by
  refine ⟨?_, ?_, ?_, ?_, fun html => ⟨rfl, pyStrip_decomp _⟩⟩
  · intro rich hrich
    simp [create_stix2_report_from_report, create_report, hrich]
  · intro hrich d hd
    simp [create_stix2_report_from_report, create_report, hrich, hd]
  · intro hrich hd sd hsd
    simp [create_stix2_report_from_report, create_report, hrich, hd, hsd]
  · intro hrich hd hsd
    simp [create_stix2_report_from_report, create_report, hrich, hd, hsd]

/-- Witness for C5: with every description field absent, the built
report's description is the literal `"N/A"`. -/
theorem claim_C5_witness :
    (create_stix2_report_from_report id 0
        { name := "r", rich_text_description := none, description := none,
          short_description := none, created_date := none }
        "author").description = "N/A" :=
  (claim_C5_report_description id 0
    { name := "r", rich_text_description := none, description := none,
      short_description := none, created_date := none }
    "author").2.2.2.1 rfl rfl rfl

/-- C6: `split_countries_and_regions` keeps exactly the entities having
both a slug and a value, in input order: slugs longer than two characters
become regions, the rest become countries, and entities missing a slug or
a value appear in neither list. -/
theorem claim_C6_split_countries_and_regions
    (entities : List Entity) (author : String) :
    (split_countries_and_regions entities author).1
      = (entities.filter fun e =>
          e.slug.isSome && e.value.isSome
            && decide ((e.slug.getD "").length > 2)).map
          (fun e => create_region e author)
    ∧ (split_countries_and_regions entities author).2
      = (entities.filter fun e =>
          e.slug.isSome && e.value.isSome
            && !decide ((e.slug.getD "").length > 2)).map
          (fun e => create_country e author) := by
  induction entities with
  | nil => simp [split_countries_and_regions]
  | cons e rest ih =>
    obtain ⟨ih1, ih2⟩ := ih
    cases hs : e.slug with
    | none => simpa [split_countries_and_regions, hs] using ⟨ih1, ih2⟩
    | some slug =>
      cases hv : e.value with
      | none => simpa [split_countries_and_regions, hs, hv] using ⟨ih1, ih2⟩
      | some v =>
        by_cases hlen : slug.length > 2
        · simpa [split_countries_and_regions, hs, hv, hlen] using ⟨ih1, ih2⟩
        · simpa [split_countries_and_regions, hs, hv, hlen] using ⟨ih1, ih2⟩

/-- C10: `create_intrusion_set_from_actor` names the intrusion set after
the actor, falling back to `NO_NAME_{actor.id}`; the aliases list is
exactly the name with every space character removed; and the secondary
motivations list is empty unless a non-empty secondary motivation was
supplied, in which case it is exactly that string. -/
theorem claim_C10_create_intrusion_set_from_actor
    (actor : Actor) (author : String)
    (primary_motivation secondary_motivation : Option String) :
    (∀ n, actor.name = some n →
      (create_intrusion_set_from_actor actor author primary_motivation
          secondary_motivation).name = n
      ∧ (create_intrusion_set_from_actor actor author primary_motivation
          secondary_motivation).aliases = [removeSpaces n])
    ∧ (actor.name = none →
        (create_intrusion_set_from_actor actor author primary_motivation
            secondary_motivation).name = "NO_NAME_" ++ toString actor.id
        ∧ (create_intrusion_set_from_actor actor author primary_motivation
            secondary_motivation).aliases
          = [removeSpaces ("NO_NAME_" ++ toString actor.id)])
    ∧ ((secondary_motivation = none ∨ secondary_motivation = some "") →
        (create_intrusion_set_from_actor actor author primary_motivation
            secondary_motivation).secondary_motivations = [])
    ∧ (∀ s, secondary_motivation = some s → s ≠ "" →
        (create_intrusion_set_from_actor actor author primary_motivation
            secondary_motivation).secondary_motivations = [s]) := by
  refine ⟨?_, ?_, ?_, ?_⟩
  · intro n hn
    exact ⟨by simp [create_intrusion_set_from_actor, create_intrusion_set,
        hn],
      by simp [create_intrusion_set_from_actor, create_intrusion_set, hn]⟩
  · intro hn
    exact ⟨by simp [create_intrusion_set_from_actor, create_intrusion_set,
        hn],
      by simp [create_intrusion_set_from_actor, create_intrusion_set, hn]⟩
  · rintro (h | h) <;>
      simp [create_intrusion_set_from_actor, create_intrusion_set, h]
  · intro s hs hne
    simp [create_intrusion_set_from_actor, create_intrusion_set, hs, hne]

/-- Witness for C10: a nameless actor with id 7 and secondary motivation
`"money"` yields the fallback name and that single motivation. -/
theorem claim_C10_witness :
    (create_intrusion_set_from_actor ⟨7, none⟩ "author" none
        (some "money")).name = "NO_NAME_7"
    ∧ (create_intrusion_set_from_actor ⟨7, none⟩ "author" none
        (some "money")).secondary_motivations = ["money"] := by
  have h := claim_C10_create_intrusion_set_from_actor ⟨7, none⟩ "author"
    none (some "money")
  exact ⟨(h.2.1 rfl).1, h.2.2.2 "money" rfl (by decide)⟩

lemma foldl_latest_eq_foldl_max (l : List Pulse) (a : Int) :
    l.foldl (fun latest p => if p.modified > latest then p.modified
        else latest) a
      = (l.map Pulse.modified).foldl max a := by
  induction l generalizing a with
  | nil => rfl
  | cons p rest ih =>
    simp only [List.foldl_cons, List.map_cons]
    rw [ih]
    congr 1
    by_cases h : p.modified > a
    · simp [h, max_eq_right (le_of_lt h)]
    · simp [h, max_eq_left (not_lt.mp h)]

lemma le_foldl_max (l : List Int) (a : Int) : a ≤ l.foldl max a := by
  induction l generalizing a with
  | nil => simp
  | cons x rest ih => exact le_trans (le_max_left a x) (ih (max a x))

lemma foldl_max_of_forall_le (l : List Int) (a : Int)
    (h : ∀ x ∈ l, x ≤ a) : l.foldl max a = a := by
  induction l with
  | nil => rfl
  | cons x rest ih =>
    simp only [List.foldl_cons]
    rw [max_eq_left (h x (by simp))]
    exact ih fun y hy => h y (by simp [hy])

/-- C1: `PulseImporter.run` returns as `latest_pulse_timestamp` the
maximum of the fetch-start timestamp (the state's stored value, or the
default when the key is absent) and the `modified` times of all fetched
pulses; when no fetched pulse is newer than the fetch-start timestamp the
returned watermark equals the fetch-start timestamp, and the watermark
never decreases across runs. -/
theorem claim_C1_run_watermark (guessMalware : Bool) (defaultLatest : Int)
    (getPulses : Int → List Pulse) (f : String → Option String)
    (cache0 : List (String × String)) (state : Option Int) :
    (PulseImporter.run guessMalware defaultLatest getPulses f cache0
        state).1
      = ((getPulses (state.getD defaultLatest)).map Pulse.modified).foldl
          max (state.getD defaultLatest)
    ∧ state.getD defaultLatest
        ≤ (PulseImporter.run guessMalware defaultLatest getPulses f cache0
            state).1
    ∧ ((∀ p ∈ getPulses (state.getD defaultLatest),
          p.modified ≤ state.getD defaultLatest) →
        (PulseImporter.run guessMalware defaultLatest getPulses f cache0
            state).1 = state.getD defaultLatest) := by
  have h1 : (PulseImporter.run guessMalware defaultLatest getPulses f
      cache0 state).1
      = ((getPulses (state.getD defaultLatest)).map Pulse.modified).foldl
          max (state.getD defaultLatest) := by
    simp only [PulseImporter.run]
    exact foldl_latest_eq_foldl_max _ _
  refine ⟨h1, ?_, ?_⟩
  · rw [h1]
    exact le_foldl_max _ _
  · intro h
    rw [h1]
    apply foldl_max_of_forall_le
    intro x hx
    obtain ⟨p, hp, rfl⟩ := List.mem_map.mp hx
    exact h p hp

/-- Witness for C1: with one stale pulse (modified 3) and fetch-start
timestamp 10, the returned watermark stays 10. -/
theorem claim_C1_witness :
    (PulseImporter.run false 10
        (fun _ => [{ modified := 3, tags := [] }]) (fun _ => none) []
        none).1 = 10 :=
  (claim_C1_run_watermark false 10
      (fun _ => [{ modified := 3, tags := [] }]) (fun _ => none) []
      none).2.2 (by
    intro p hp
    simp only [List.mem_singleton] at hp
    subst hp
    decide)

/-- C9: the result of `PulseImporter.run` is independent of whatever
`malware_guess_cache` held before the run: the cache is cleared before
any pulse is processed, so two runs differing only in the initial cache
return the same state mapping (and the same per-pulse guesses). -/
theorem claim_C9_run_cache_independent (guessMalware : Bool)
    (defaultLatest : Int) (getPulses : Int → List Pulse)
    (f : String → Option String)
    (cache0 cache1 : List (String × String)) (state : Option Int) :
    PulseImporter.run guessMalware defaultLatest getPulses f cache0 state
      = PulseImporter.run guessMalware defaultLatest getPulses f cache1
          state := rfl

lemma pagStates_frozen {α : Type} (func : Int → Int → ApiResponse α)
    (limit : Int) (n m : Nat)
    (hstop : next_batch limit (pagStates func limit n).offset
      (pagStates func limit n).total = false) (hnm : n ≤ m) :
    pagStates func limit m = pagStates func limit n
    ∧ pagYields func limit m = pagYields func limit n := by
  induction m, hnm using Nat.le_induction with
  | base => exact ⟨rfl, rfl⟩
  | succ m hnm ih =>
    obtain ⟨ihs, ihy⟩ := ih
    refine ⟨?_, ?_⟩
    · simp [pagStates, ihs, hstop]
    · simp [pagYields, ihs, hstop, ihy]

lemma pagStates_run {α : Type} (func : Int → Int → ApiResponse α)
    (limit T : Int)
    (hpag : ∀ l o, ∃ p, (func l o).pagination = some p
      ∧ p.total = some T) :
    ∀ n, (∀ m, m < n → next_batch limit (pagStates func limit m).offset
        (pagStates func limit m).total = true) →
      pagStates func limit n
        = ⟨(n : Int) * limit, if n = 0 then none else some T⟩ := by
  intro n
  induction n with
  | zero => intro _; simp [pagStates]
  | succ n ih =>
    intro hrun
    have hs := ih fun m hm => hrun m (Nat.lt_succ_of_lt hm)
    have hr := hrun n (Nat.lt_succ_self n)
    have hstep : pagStates func limit (n + 1)
        = pagStep func limit (pagStates func limit n) := by
      simp [pagStates, hr]
    rw [hstep, hs]
    obtain ⟨p, hp, hT⟩ := hpag limit ((n : Int) * limit)
    simp only [pagStep, hp, hT]
    have : ((n : Int) + 1) * limit = (n : Int) * limit + limit := by ring
    simp [this]

/-- C3 (amended): for a positive request limit, when every response
carries pagination metadata reporting the same finite total, the
`paginate` loop terminates — `next_batch(limit, offset, total)` is true
iff the total is `None` or exceeds the offset, the offset advances by the
request limit on each iteration, some iteration finds `next_batch` false,
and from that point on no further batch is yielded. -/
theorem claim_C3_paginate {α : Type} (func : Int → Int → ApiResponse α)
    (limit T : Int) (hlim : 0 < limit)
    (hpag : ∀ l o, ∃ p, (func l o).pagination = some p
      ∧ p.total = some T) :
    (∀ l o t, next_batch l o t = true
      ↔ (t = none ∨ ∃ tv, t = some tv ∧ tv - o > 0))
    ∧ (∀ n, next_batch limit (pagStates func limit n).offset
          (pagStates func limit n).total = true →
        (pagStates func limit (n + 1)).offset
          = (pagStates func limit n).offset + limit)
    ∧ paginateStops func limit
    ∧ (∀ n m, next_batch limit (pagStates func limit n).offset
          (pagStates func limit n).total = false → n ≤ m →
        pagYields func limit m = pagYields func limit n) := by
  refine ⟨?_, ?_, ?_, ?_⟩
  · intro l o t
    cases t with
    | none => simp [next_batch]
    | some tv => simp [next_batch]
  · intro n hn
    obtain ⟨p, hp, hT⟩ := hpag limit (pagStates func limit n).offset
    simp [pagStates, hn, pagStep, hp]
  · by_cases hall : ∀ m, m < T.toNat + 1 →
        next_batch limit (pagStates func limit m).offset
          (pagStates func limit m).total = true
    · refine ⟨T.toNat + 1, ?_⟩
      rw [pagStates_run func limit T hpag _ hall]
      have h1 : (T : Int) ≤ (T.toNat : Int) := Int.self_le_toNat T
      have h0 : (0 : Int) ≤ ((T.toNat + 1 : Nat) : Int) := by positivity
      have h2 : ((T.toNat + 1 : Nat) : Int)
          ≤ ((T.toNat + 1 : Nat) : Int) * limit :=
        le_mul_of_one_le_right h0 hlim
      simp only [next_batch, Nat.succ_ne_zero, if_false]
      rw [decide_eq_false_iff_not]
      push_cast at h2 ⊢
      linarith
    · push_neg at hall
      obtain ⟨m, _, hfalse⟩ := hall
      exact ⟨m, by simpa using hfalse⟩
  · intro n m hstop hnm
    exact (pagStates_frozen func limit n m hstop hnm).2

/-- A stub API endpoint whose every response reports total 3. -/
def pagStubFunc : Int → Int → ApiResponse Unit := fun l o =>
  { errors := []
    pagination := some { limit := l, offset := o, total := some 3 }
    resources := [()] }

/-- Witness for C3: with limit 2 against `pagStubFunc` (total 3), the
loop stops. -/
theorem claim_C3_witness : paginateStops pagStubFunc 2 :=
  (claim_C3_paginate pagStubFunc 2 3 (by decide)
    fun l o => ⟨_, rfl, rfl⟩).2.2.1

/-- A stub API endpoint whose every response reports total 1. -/
def pagCexFunc : Int → Int → ApiResponse Unit := fun l o =>
  { errors := []
    pagination := some { limit := l, offset := o, total := some 1 }
    resources := [()] }

lemma pagCexFunc_states (n : Nat) :
    pagStates pagCexFunc 0 n = ⟨0, if n = 0 then none else some 1⟩ := by
  induction n with
  | zero => simp [pagStates]
  | succ n ih =>
    rw [pagStates.eq_def]
    simp only [ih]
    by_cases hn : n = 0 <;> simp [hn, next_batch, pagStep, pagCexFunc]

/-- Counterexample for C3 as stated: with request limit 0 every response
carries pagination metadata with the finite total 1, yet the loop never
stops (the offset never advances), so the generator does not yield only
finitely many batches. -/
theorem claim_C3_counterexample :
    (∀ l o, ∃ p, (pagCexFunc l o).pagination = some p
      ∧ p.total = some 1)
    ∧ ¬ paginateStops pagCexFunc 0 := by
  refine ⟨fun l o => ⟨_, rfl, rfl⟩, ?_⟩
  rintro ⟨n, hn⟩
  rw [pagCexFunc_states] at hn
  by_cases h : n = 0 <;> simp [h, next_batch] at hn

namespace PulseImporter

lemma dictGet_dictSet (m : List (String × String)) (k v j : String) :
    dictGet (dictSet m k v) j = if k = j then some v else dictGet m j := by
  induction m with
  | nil => simp [dictSet, dictGet]
  | cons kv rest ih =>
    by_cases hk : kv.1 = k
    · by_cases hj : k = j <;> simp [dictSet, dictGet, hk, hj]
    · by_cases hj : kv.1 = j
      · have hkj : ¬ k = j := fun hh => hk (hj.trans hh.symm)
        simp only [dictSet, if_neg hk, dictGet, if_pos hj, if_neg hkj]
      · simp [dictSet, dictGet, hk, hj, ih]

lemma dictSet_self (m : List (String × String)) (k v : String)
    (h : dictGet m k = some v) : dictSet m k v = m := by
  induction m with
  | nil => simp [dictGet] at h
  | cons kv rest ih =>
    by_cases hk : kv.1 = k
    · simp only [dictGet, if_pos hk] at h
      injection h with h
      have hkv : (k, v) = kv := Prod.ext_iff.mpr ⟨hk.symm, h.symm⟩
      simp [dictSet, if_pos hk, hkv]
    · simp only [dictGet, if_neg hk] at h
      simp [dictSet, hk, ih h]

lemma guessGo_append (f : String → Option String) (as bs : List String) :
    ∀ m st, guessGo f (as ++ bs) m st
      = guessGo f bs (guessGo f as m st).1 (guessGo f as m st).2 := by
  induction as with
  | nil => intro m st; simp [guessGo]
  | cons tag rest ih =>
    intro m st
    by_cases ht : tag = ""
    · simp [guessGo, ht, ih]
    · cases hc : dictGet st.cache tag with
      | some g => simp [guessGo, ht, hc, ih]
      | none => simp [guessGo, ht, hc, ih]

lemma guessGo_cache_mono (f : String → Option String) (tags : List String) :
    ∀ m st k v, dictGet st.cache k = some v →
      dictGet (guessGo f tags m st).2.cache k = some v := by
  induction tags with
  | nil => intro m st k v h; simpa [guessGo] using h
  | cons tag rest ih =>
    intro m st k v h
    by_cases ht : tag = ""
    · rw [show guessGo f (tag :: rest) m st = guessGo f rest m st from
        by simp [guessGo, ht]]
      exact ih m st k v h
    · cases hc : dictGet st.cache tag with
      | some g =>
        rw [show guessGo f (tag :: rest) m st
            = guessGo f rest (if g = GUESS_NOT_A_MALWARE then m
                else dictSet m tag g) st from by simp [guessGo, ht, hc]]
        exact ih _ st k v h
      | none =>
        have hkt : ¬ tag = k := by
          intro hh
          rw [hh] at hc
          rw [hc] at h
          exact Option.noConfusion h
        rw [show guessGo f (tag :: rest) m st
            = guessGo f rest
                (if guessOf f tag = GUESS_NOT_A_MALWARE then m
                  else dictSet m tag (guessOf f tag))
                ⟨dictSet st.cache tag (guessOf f tag), st.calls ++ [tag]⟩
            from by simp [guessGo, ht, hc]]
        apply ih
        show dictGet (dictSet st.cache tag (guessOf f tag)) k = some v
        rw [dictGet_dictSet, if_neg hkt]
        exact h

lemma guessGo_cache_mem (f : String → Option String) (tags : List String) :
    ∀ m st t, t ∈ tags → t ≠ "" →
      ∃ v, dictGet (guessGo f tags m st).2.cache t = some v := by
  induction tags with
  | nil => intro m st t h; exact absurd h (List.not_mem_nil t)
  | cons tag rest ih =>
    intro m st t hmem hne
    by_cases ht : tag = ""
    · rw [show guessGo f (tag :: rest) m st = guessGo f rest m st from
        by simp [guessGo, ht]]
      rcases List.mem_cons.mp hmem with rfl | hmem
      · exact absurd ht hne
      · exact ih m st t hmem hne
    · cases hc : dictGet st.cache tag with
      | some g =>
        rw [show guessGo f (tag :: rest) m st
            = guessGo f rest (if g = GUESS_NOT_A_MALWARE then m
                else dictSet m tag g) st from by simp [guessGo, ht, hc]]
        rcases List.mem_cons.mp hmem with rfl | hmem
        · exact ⟨g, guessGo_cache_mono f rest _ st t g hc⟩
        · exact ih _ st t hmem hne
      | none =>
        rw [show guessGo f (tag :: rest) m st
            = guessGo f rest
                (if guessOf f tag = GUESS_NOT_A_MALWARE then m
                  else dictSet m tag (guessOf f tag))
                ⟨dictSet st.cache tag (guessOf f tag), st.calls ++ [tag]⟩
            from by simp [guessGo, ht, hc]]
        rcases List.mem_cons.mp hmem with rfl | hmem
        · refine ⟨guessOf f t, guessGo_cache_mono f rest _ _ t _ ?_⟩
          show dictGet (dictSet st.cache t (guessOf f t)) t = some _
          rw [dictGet_dictSet, if_pos rfl]
        · exact ih _ _ t hmem hne

/-- Every cache entry is the guess the lookup oracle dictates: the STIX
id when the lookup succeeds, the sentinel otherwise.  Holds for the
cleared cache and is preserved by `guessGo`. -/
def CacheOK (f : String → Option String)
    (cache : List (String × String)) : Prop :=
  ∀ k v, dictGet cache k = some v → v = guessOf f k

/-- Every cached non-sentinel guess has been recorded in the result
mapping. -/
def CacheInMap (cache m : List (String × String)) : Prop :=
  ∀ k g, dictGet cache k = some g → g ≠ GUESS_NOT_A_MALWARE →
    dictGet m k = some g

lemma cacheOK_nil (f : String → Option String) : CacheOK f [] := by
  intro k v h
  simp [dictGet] at h

lemma cacheOK_set (f : String → Option String)
    (cache : List (String × String)) (tag : String)
    (hok : CacheOK f cache) :
    CacheOK f (dictSet cache tag (guessOf f tag)) := by
  intro k v hk
  rw [dictGet_dictSet] at hk
  by_cases hkt : tag = k
  · rw [if_pos hkt] at hk
    injection hk with hk
    subst hkt
    exact hk.symm
  · rw [if_neg hkt] at hk
    exact hok k v hk

lemma guessGo_cacheOK (f : String → Option String) (tags : List String) :
    ∀ m st, CacheOK f st.cache →
      CacheOK f (guessGo f tags m st).2.cache := by
  induction tags with
  | nil => intro m st h; simpa [guessGo] using h
  | cons tag rest ih =>
    intro m st h
    by_cases ht : tag = ""
    · rw [show guessGo f (tag :: rest) m st = guessGo f rest m st from
        by simp [guessGo, ht]]
      exact ih m st h
    · cases hc : dictGet st.cache tag with
      | some g =>
        rw [show guessGo f (tag :: rest) m st
            = guessGo f rest (if g = GUESS_NOT_A_MALWARE then m
                else dictSet m tag g) st from by simp [guessGo, ht, hc]]
        exact ih _ st h
      | none =>
        rw [show guessGo f (tag :: rest) m st
            = guessGo f rest
                (if guessOf f tag = GUESS_NOT_A_MALWARE then m
                  else dictSet m tag (guessOf f tag))
                ⟨dictSet st.cache tag (guessOf f tag), st.calls ++ [tag]⟩
            from by simp [guessGo, ht, hc]]
        exact ih _ _ (cacheOK_set f st.cache tag h)

lemma guessGo_cacheInMap (f : String → Option String)
    (tags : List String) :
    ∀ m st, CacheOK f st.cache → CacheInMap st.cache m →
      CacheInMap (guessGo f tags m st).2.cache
        (guessGo f tags m st).1 := by
  induction tags with
  | nil => intro m st _ h; simpa [guessGo] using h
  | cons tag rest ih =>
    intro m st hok h
    by_cases ht : tag = ""
    · rw [show guessGo f (tag :: rest) m st = guessGo f rest m st from
        by simp [guessGo, ht]]
      exact ih m st hok h
    · cases hc : dictGet st.cache tag with
      | some g =>
        have hg : g = guessOf f tag := hok tag g hc
        rw [show guessGo f (tag :: rest) m st
            = guessGo f rest (if g = GUESS_NOT_A_MALWARE then m
                else dictSet m tag g) st from by simp [guessGo, ht, hc]]
        refine ih _ st hok ?_
        by_cases hgs : g = GUESS_NOT_A_MALWARE
        · rw [if_pos hgs]
          exact h
        · rw [if_neg hgs]
          intro k g2 hk hg2
          rw [dictGet_dictSet]
          by_cases hkt : tag = k
          · subst hkt
            rw [hc] at hk
            injection hk with hk
            simp [hk]
          · rw [if_neg hkt]
            exact h k g2 hk hg2
      | none =>
        rw [show guessGo f (tag :: rest) m st
            = guessGo f rest
                (if guessOf f tag = GUESS_NOT_A_MALWARE then m
                  else dictSet m tag (guessOf f tag))
                ⟨dictSet st.cache tag (guessOf f tag), st.calls ++ [tag]⟩
            from by simp [guessGo, ht, hc]]
        refine ih _ _ (cacheOK_set f st.cache tag hok) ?_
        intro k g2 hk hg2
        show dictGet (if guessOf f tag = GUESS_NOT_A_MALWARE then m
          else dictSet m tag (guessOf f tag)) k = some g2
        replace hk : dictGet (dictSet st.cache tag (guessOf f tag)) k
            = some g2 := hk
        rw [dictGet_dictSet] at hk
        by_cases hkt : tag = k
        · rw [if_pos hkt] at hk
          injection hk with hk
          rw [← hk] at hg2 ⊢
          rw [if_neg hg2, dictGet_dictSet, if_pos hkt]
        · rw [if_neg hkt] at hk
          by_cases hgs : guessOf f tag = GUESS_NOT_A_MALWARE
          · rw [if_pos hgs]
            exact h k g2 hk hg2
          · rw [if_neg hgs, dictGet_dictSet, if_neg hkt]
            exact h k g2 hk hg2

lemma guessGo_calls (f : String → Option String) (tags : List String) :
    ∀ m st, (guessGo f tags m st).2.calls
      = st.calls ++ newCallsOf f tags st.cache := by
  induction tags with
  | nil => intro m st; simp [guessGo, newCallsOf]
  | cons tag rest ih =>
    intro m st
    by_cases ht : tag = ""
    · simp [guessGo, newCallsOf, ht, ih]
    · cases hc : dictGet st.cache tag with
      | some g => simp [guessGo, newCallsOf, ht, hc, ih]
      | none => simp [guessGo, newCallsOf, ht, hc, ih]

lemma newCallsOf_mem (f : String → Option String) (tags : List String) :
    ∀ cache c, c ∈ newCallsOf f tags cache → c ∈ tags ∧ c ≠ "" := by
  induction tags with
  | nil => intro cache c h; simp [newCallsOf] at h
  | cons tag rest ih =>
    intro cache c h
    by_cases ht : tag = ""
    · have := ih cache c (by simpa [newCallsOf, ht] using h)
      exact ⟨List.mem_cons_of_mem _ this.1, this.2⟩
    · cases hc : dictGet cache tag with
      | some g =>
        have := ih cache c (by simpa [newCallsOf, ht, hc] using h)
        exact ⟨List.mem_cons_of_mem _ this.1, this.2⟩
      | none =>
        rw [show newCallsOf f (tag :: rest) cache
            = tag :: newCallsOf f rest (dictSet cache tag (guessOf f tag))
          from by simp [newCallsOf, ht, hc]] at h
        rcases List.mem_cons.mp h with rfl | h
        · exact ⟨List.mem_cons_self _ _, ht⟩
        · have := ih _ c h
          exact ⟨List.mem_cons_of_mem _ this.1, this.2⟩

lemma newCallsOf_not_cached (f : String → Option String)
    (tags : List String) :
    ∀ cache c, c ∈ newCallsOf f tags cache → dictGet cache c = none := by
  induction tags with
  | nil => intro cache c h; simp [newCallsOf] at h
  | cons tag rest ih =>
    intro cache c h
    by_cases ht : tag = ""
    · exact ih cache c (by simpa [newCallsOf, ht] using h)
    · cases hc : dictGet cache tag with
      | some g => exact ih cache c (by simpa [newCallsOf, ht, hc] using h)
      | none =>
        rw [show newCallsOf f (tag :: rest) cache
            = tag :: newCallsOf f rest (dictSet cache tag (guessOf f tag))
          from by simp [newCallsOf, ht, hc]] at h
        rcases List.mem_cons.mp h with rfl | h
        · exact hc
        · have := ih _ c h
          rw [dictGet_dictSet] at this
          by_cases hkt : tag = c
          · rw [if_pos hkt] at this
            exact Option.noConfusion this
          · rwa [if_neg hkt] at this

lemma newCallsOf_nodup (f : String → Option String) (tags : List String) :
    ∀ cache, (newCallsOf f tags cache).Nodup := by
  induction tags with
  | nil => intro cache; simp [newCallsOf]
  | cons tag rest ih =>
    intro cache
    by_cases ht : tag = ""
    · simpa [newCallsOf, ht] using ih cache
    · cases hc : dictGet cache tag with
      | some g => simpa [newCallsOf, ht, hc] using ih cache
      | none =>
        rw [show newCallsOf f (tag :: rest) cache
            = tag :: newCallsOf f rest (dictSet cache tag (guessOf f tag))
          from by simp [newCallsOf, ht, hc]]
        rw [List.nodup_cons]
        refine ⟨?_, ih _⟩
        intro hmem
        have := newCallsOf_not_cached f rest _ tag hmem
        rw [dictGet_dictSet, if_pos rfl] at this
        exact Option.noConfusion this

lemma guessGo_cached_id (f : String → Option String) (tags : List String) :
    ∀ m st,
      (∀ t, t ∈ tags → t ≠ "" → dictGet st.cache t = some (guessOf f t)) →
      CacheInMap st.cache m →
      guessGo f tags m st = (m, st) := by
  induction tags with
  | nil => intro m st _ _; simp [guessGo]
  | cons tag rest ih =>
    intro m st hcached hmap
    by_cases ht : tag = ""
    · rw [show guessGo f (tag :: rest) m st = guessGo f rest m st from
        by simp [guessGo, ht]]
      exact ih m st
        (fun t h1 h2 => hcached t (List.mem_cons_of_mem _ h1) h2) hmap
    · have hc := hcached tag (List.mem_cons_self _ _) ht
      by_cases hg : guessOf f tag = GUESS_NOT_A_MALWARE
      · rw [show guessGo f (tag :: rest) m st = guessGo f rest m st from
          by simp [guessGo, ht, hc, hg]]
        exact ih m st
          (fun t h1 h2 => hcached t (List.mem_cons_of_mem _ h1) h2) hmap
      · have hm : dictGet m tag = some (guessOf f tag) :=
          hmap tag _ hc hg
        have hset : dictSet m tag (guessOf f tag) = m :=
          dictSet_self m _ _ hm
        rw [show guessGo f (tag :: rest) m st = guessGo f rest m st from
          by simp [guessGo, ht, hc, hg, hset]]
        exact ih m st
          (fun t h1 h2 => hcached t (List.mem_cons_of_mem _ h1) h2) hmap

lemma guessOf_eq_of_lookup (f : String → Option String) (tag v : String)
    (h : f tag = some v) : guessOf f tag = v := by
  simp [guessOf, h]

lemma lookup_of_guessOf_ne (f : String → Option String) (tag : String)
    (hg : guessOf f tag ≠ GUESS_NOT_A_MALWARE) :
    f tag = some (guessOf f tag) := by
  cases hf : f tag with
  | none => exact absurd (by simp [guessOf, hf]) hg
  | some i => simp [guessOf, hf]

lemma mapStep_hm (f : String → Option String)
    (m : List (String × String)) (tag : String)
    (hm : ∀ k v, dictGet m k = some v →
      f k = some v ∧ v ≠ GUESS_NOT_A_MALWARE) :
    ∀ k v, dictGet (if guessOf f tag = GUESS_NOT_A_MALWARE then m
        else dictSet m tag (guessOf f tag)) k = some v →
      f k = some v ∧ v ≠ GUESS_NOT_A_MALWARE := by
  intro k v h
  by_cases hg : guessOf f tag = GUESS_NOT_A_MALWARE
  · rw [if_pos hg] at h
    exact hm k v h
  · rw [if_neg hg, dictGet_dictSet] at h
    by_cases hkt : tag = k
    · rw [if_pos hkt] at h
      injection h with h
      subst hkt
      subst h
      exact ⟨lookup_of_guessOf_ne f tag hg, hg⟩
    · rw [if_neg hkt] at h
      exact hm k v h

lemma mapStep_char (f : String → Option String)
    (m : List (String × String)) (tag : String) (ht : tag ≠ "")
    (hm : ∀ k v, dictGet m k = some v →
      f k = some v ∧ v ≠ GUESS_NOT_A_MALWARE)
    (k v : String) (rest : List String) :
    (dictGet (if guessOf f tag = GUESS_NOT_A_MALWARE then m
        else dictSet m tag (guessOf f tag)) k = some v
      ∨ (k ∈ rest ∧ k ≠ "" ∧ f k = some v ∧ v ≠ GUESS_NOT_A_MALWARE))
    ↔ (dictGet m k = some v
      ∨ (k ∈ tag :: rest ∧ k ≠ "" ∧ f k = some v
          ∧ v ≠ GUESS_NOT_A_MALWARE)) := by
  by_cases hg : guessOf f tag = GUESS_NOT_A_MALWARE
  · rw [if_pos hg]
    constructor
    · rintro (h | ⟨h1, h2, h3, h4⟩)
      · exact Or.inl h
      · exact Or.inr ⟨List.mem_cons_of_mem _ h1, h2, h3, h4⟩
    · rintro (h | ⟨h1, h2, h3, h4⟩)
      · exact Or.inl h
      · rcases List.mem_cons.mp h1 with rfl | h1
        · exact absurd hg (by rw [guessOf_eq_of_lookup f k v h3]; exact h4)
        · exact Or.inr ⟨h1, h2, h3, h4⟩
  · rw [if_neg hg, dictGet_dictSet]
    by_cases hkt : tag = k
    · subst hkt
      rw [if_pos rfl]
      constructor
      · rintro (h | ⟨h1, h2, h3, h4⟩)
        · injection h with h
          subst h
          exact Or.inr ⟨List.mem_cons_self _ _, ht,
            lookup_of_guessOf_ne f tag hg, hg⟩
        · exact Or.inr ⟨List.mem_cons_self _ _, h2, h3, h4⟩
      · rintro (h | ⟨h1, h2, h3, h4⟩)
        · obtain ⟨h3, _⟩ := hm tag v h
          exact Or.inl (by rw [guessOf_eq_of_lookup f tag v h3])
        · exact Or.inl (by rw [guessOf_eq_of_lookup f tag v h3])
    · rw [if_neg hkt]
      constructor
      · rintro (h | ⟨h1, h2, h3, h4⟩)
        · exact Or.inl h
        · exact Or.inr ⟨List.mem_cons_of_mem _ h1, h2, h3, h4⟩
      · rintro (h | ⟨h1, h2, h3, h4⟩)
        · exact Or.inl h
        · rcases List.mem_cons.mp h1 with rfl | h1
          · exact absurd rfl hkt
          · exact Or.inr ⟨h1, h2, h3, h4⟩

lemma guessGo_map_char (f : String → Option String) (tags : List String) :
    ∀ m st, CacheOK f st.cache →
      (∀ k v, dictGet m k = some v →
        f k = some v ∧ v ≠ GUESS_NOT_A_MALWARE) →
      ∀ k v, dictGet (guessGo f tags m st).1 k = some v
        ↔ (dictGet m k = some v
          ∨ (k ∈ tags ∧ k ≠ "" ∧ f k = some v
              ∧ v ≠ GUESS_NOT_A_MALWARE)) := by
  induction tags with
  | nil =>
    intro m st _ _ k v
    simp [guessGo]
  | cons tag rest ih =>
    intro m st hok hm k v
    by_cases ht : tag = ""
    · rw [show guessGo f (tag :: rest) m st = guessGo f rest m st from
        by simp [guessGo, ht]]
      rw [ih m st hok hm k v]
      subst ht
      constructor
      · rintro (h | ⟨h1, h2, h3, h4⟩)
        · exact Or.inl h
        · exact Or.inr ⟨List.mem_cons_of_mem _ h1, h2, h3, h4⟩
      · rintro (h | ⟨h1, h2, h3, h4⟩)
        · exact Or.inl h
        · rcases List.mem_cons.mp h1 with rfl | h1
          · exact absurd rfl h2
          · exact Or.inr ⟨h1, h2, h3, h4⟩
    · cases hc : dictGet st.cache tag with
      | some g =>
        have hg : g = guessOf f tag := hok tag g hc
        rw [show guessGo f (tag :: rest) m st
            = guessGo f rest
                (if guessOf f tag = GUESS_NOT_A_MALWARE then m
                  else dictSet m tag (guessOf f tag)) st from
          by rw [← hg]; simp [guessGo, ht, hc]]
        rw [ih _ st hok (mapStep_hm f m tag hm) k v]
        exact mapStep_char f m tag ht hm k v rest
      | none =>
        rw [show guessGo f (tag :: rest) m st
            = guessGo f rest
                (if guessOf f tag = GUESS_NOT_A_MALWARE then m
                  else dictSet m tag (guessOf f tag))
                ⟨dictSet st.cache tag (guessOf f tag), st.calls ++ [tag]⟩
            from by simp [guessGo, ht, hc]]
        rw [ih _ _ (cacheOK_set f st.cache tag hok)
          (mapStep_hm f m tag hm) k v]
        exact mapStep_char f m tag ht hm k v rest

end PulseImporter

/-- C2: within one invocation, `_guess_malwares_from_tags` performs at
most one malware-lookup call per distinct non-empty tag — the calls it
appends to the lookup log are duplicate-free non-empty tags of the input
list — repeated occurrences of a tag reuse the dictionary-cached result
and yield the same guess (processing the tag list twice over changes
nothing), and with `guess_malware` disabled it returns the empty mapping
without any lookup. -/
theorem claim_C2_guess_lookup_caching (f : String → Option String)
    (st : PulseImporter.GuessState) (tags : List String) :
    PulseImporter.guess_malwares_from_tags false f st tags = ([], st)
    ∧ (PulseImporter.guess_malwares_from_tags true f st tags).2.calls
        = st.calls ++ PulseImporter.newCallsOf f tags st.cache
    ∧ (PulseImporter.newCallsOf f tags st.cache).Nodup
    ∧ (∀ c ∈ PulseImporter.newCallsOf f tags st.cache, c ∈ tags ∧ c ≠ "")
    ∧ PulseImporter.guess_malwares_from_tags true f ⟨[], []⟩ (tags ++ tags)
        = PulseImporter.guess_malwares_from_tags true f ⟨[], []⟩ tags := by
  refine ⟨rfl, ?_, PulseImporter.newCallsOf_nodup f tags st.cache,
    fun c hc => PulseImporter.newCallsOf_mem f tags st.cache c hc, ?_⟩
  · simpa [PulseImporter.guess_malwares_from_tags] using
      PulseImporter.guessGo_calls f tags [] st
  · show PulseImporter.guessGo f (tags ++ tags) [] ⟨[], []⟩
      = PulseImporter.guessGo f tags [] ⟨[], []⟩
    rw [PulseImporter.guessGo_append f tags tags [] ⟨[], []⟩]
    have hok : PulseImporter.CacheOK f
        (PulseImporter.guessGo f tags [] ⟨[], []⟩).2.cache :=
      PulseImporter.guessGo_cacheOK f tags [] ⟨[], []⟩
        (PulseImporter.cacheOK_nil f)
    have hmap : PulseImporter.CacheInMap
        (PulseImporter.guessGo f tags [] ⟨[], []⟩).2.cache
        (PulseImporter.guessGo f tags [] ⟨[], []⟩).1 :=
      PulseImporter.guessGo_cacheInMap f tags [] ⟨[], []⟩
        (PulseImporter.cacheOK_nil f)
        (by intro k g h hg; simp [dictGet] at h)
    have hmem : ∀ t, t ∈ tags → t ≠ "" →
        dictGet (PulseImporter.guessGo f tags [] ⟨[], []⟩).2.cache t
          = some (PulseImporter.guessOf f t) := by
      intro t h1 h2
      obtain ⟨v, hv⟩ :=
        PulseImporter.guessGo_cache_mem f tags [] ⟨[], []⟩ t h1 h2
      rw [hv, hok t v hv]
    rw [PulseImporter.guessGo_cached_id f tags _ _ hmem hmap]

/-- Witness for C2: processing the duplicated tag list
`["emotet", "emotet"]` with an always-failing lookup logs exactly one
lookup call. -/
theorem claim_C2_witness :
    (PulseImporter.guess_malwares_from_tags true (fun _ => none)
        ⟨[], []⟩ ["emotet", "emotet"]).2.calls
      = [] ++ PulseImporter.newCallsOf (fun _ => none)
          ["emotet", "emotet"] []
    ∧ PulseImporter.newCallsOf (fun _ => none) ["emotet", "emotet"] []
        = ["emotet"]
    ∧ ("emotet" ∈ (["emotet", "emotet"] : List String)
        ∧ "emotet" ≠ "") :=
  ⟨(claim_C2_guess_lookup_caching (fun _ => none) ⟨[], []⟩
      ["emotet", "emotet"]).2.1, by decide,
    (claim_C2_guess_lookup_caching (fun _ => none) ⟨[], []⟩
      ["emotet", "emotet"]).2.2.2.1 "emotet" (by decide)⟩

/-- C8 (amended): starting from a cache whose entries agree with the
lookup oracle (in particular the cleared cache at the start of a run),
the mapping returned by `_guess_malwares_from_tags` has an entry for a
tag iff the tag is a non-empty member of the list and its lookup produced
a STIX id different from the `GUESS_NOT_A_MALWARE` sentinel, and that id
is the entry's value; hence the mapping never contains the sentinel and
has no entry for empty-string tags. -/
theorem claim_C8_guess_mapping_entries (f : String → Option String)
    (cache : List (String × String)) (calls : List String)
    (tags : List String) (k v : String)
    (hok : PulseImporter.CacheOK f cache) :
    dictGet (PulseImporter.guess_malwares_from_tags true f
        ⟨cache, calls⟩ tags).1 k = some v
      ↔ (k ∈ tags ∧ k ≠ "" ∧ f k = some v
          ∧ v ≠ PulseImporter.GUESS_NOT_A_MALWARE) := by
  have h := PulseImporter.guessGo_map_char f tags [] ⟨cache, calls⟩ hok
    (by intro k v h; simp [dictGet] at h) k v
  show dictGet (PulseImporter.guessGo f tags [] ⟨cache, calls⟩).1 k
      = some v ↔ _
  rw [h]
  simp [dictGet]

/-- Witness for C8: with a lookup oracle resolving only `"emotet"`, the
returned mapping maps `"emotet"` to its STIX id. -/
theorem claim_C8_witness :
    dictGet (PulseImporter.guess_malwares_from_tags true
        (fun t => if t = "emotet" then some "malware--1" else none)
        ⟨[], []⟩ ["emotet", "", "foo"]).1 "emotet" = some "malware--1" :=
  (claim_C8_guess_mapping_entries
      (fun t => if t = "emotet" then some "malware--1" else none)
      [] [] ["emotet", "", "foo"] "emotet" "malware--1"
      (PulseImporter.cacheOK_nil _)).mpr
    ⟨by decide, by decide, by decide, by decide⟩

/-- Counterexample for C8 as stated: when the malware lookup returns the
string `"GUESS_NOT_A_MALWARE"` as a STIX id, the lookup for tag `"evil"`
produced an id, yet the returned mapping has no entry for the tag (the
id collides with the sentinel and is discarded). -/
theorem claim_C8_counterexample :
    (fun _ : String => some PulseImporter.GUESS_NOT_A_MALWARE) "evil"
        = some PulseImporter.GUESS_NOT_A_MALWARE
    ∧ (PulseImporter.guess_malwares_from_tags true
        (fun _ => some PulseImporter.GUESS_NOT_A_MALWARE) ⟨[], []⟩
        ["evil"]).1 = [] :=
  ⟨rfl, by decide⟩
